import Mathlib

/-!
# Verification of the `transformers_from_scratch` encoder core

Shallow embedding of `src/model.py` and `src/utils.py`.

Two complementary embeddings of the same source code are developed:

* a *shape semantics* (`Shape := List ℕ`) that mirrors PyTorch's
  broadcasting / batched-`matmul` / `transpose` / `Linear` shape rules and is
  used to settle claims about which input shapes make a forward call
  well-defined (a `none` result models a PyTorch runtime shape error);
* a *value semantics* over matrices of reals (`Tensor2`) that mirrors the
  2-dimensional forward computations entry by entry and is used to settle
  claims about the values that the code computes.

The constructors (`__init__` methods) are embedded at the architecture level:
they perform no validation in the source, so their Lean counterparts return
`some` of the built architecture unconditionally.
-/

namespace TransformersFromScratch

/-! ## Shape semantics of the PyTorch operations used by `model.py`

A tensor shape is its list of dimension sizes, outermost first.  `none`
models a PyTorch runtime shape error. -/

/-- Shape of one tensor: list of dimension sizes, outermost dimension first. -/
abbrev Shape := List ℕ

/-- Broadcast one pair of dimension sizes (PyTorch rule: equal, or one of
them is `1`, in which case the other size wins). -/
def bcDim (a b : ℕ) : Option ℕ :=
  if a = b then some a else if a = 1 then some b else if b = 1 then some a else none

/-- Broadcast two shapes given with their dimension lists reversed
(innermost first), as PyTorch aligns shapes from the trailing dimension. -/
def broadcastRev : List ℕ → List ℕ → Option (List ℕ)
  | [], ys => some ys
  | xs, [] => some xs
  | x :: xs, y :: ys =>
    (bcDim x y).bind fun d => (broadcastRev xs ys).map fun rest => d :: rest

/-- Shape of the elementwise sum `a + b` under PyTorch broadcasting. -/
def broadcastShapes (a b : Shape) : Option Shape :=
  (broadcastRev a.reverse b.reverse).map List.reverse

/-- Shape of `torch.matmul a b` for tensors of rank ≥ 2: the last two
dimensions are multiplied as matrices, the leading (batch) dimensions are
broadcast. -/
def matmulShape (a b : Shape) : Option Shape :=
  match a.reverse, b.reverse with
  | k1 :: m :: ba, n :: k2 :: bb =>
    if k2 = k1 then (broadcastRev ba bb).map fun bc => (n :: m :: bc).reverse
    else none
  | _, _ => none

/-- Shape of `t.transpose(1, 0)`: swaps the two outermost dimensions
(requires rank ≥ 2). -/
def transpose10Shape : Shape → Option Shape
  | a :: b :: rest => some (b :: a :: rest)
  | _ => none

/-- Shape of `nn.Linear(inF, outF)` applied to a tensor: the last dimension
must equal `inF` and is replaced by `outF`. -/
def linearShape (inF outF : ℕ) (s : Shape) : Option Shape :=
  match s.reverse with
  | c :: rest => if c = inF then some ((outF :: rest).reverse) else none
  | [] => none

/-- Shape of `nn.LayerNorm(d)` applied to a tensor: the last dimension must
equal `d`; the shape is preserved. -/
def layerNormShape (d : ℕ) (s : Shape) : Option Shape :=
  match s.reverse with
  | c :: _ => if c = d then some s else none
  | [] => none

/-- Shape of `torch.cat([a, b], dim=1)`: ranks ≥ 2 must agree and every
dimension but index 1 must agree; dimension 1 sizes add. -/
def catDim1 (a b : Shape) : Option Shape :=
  match a, b with
  | a0 :: a1 :: ar, b0 :: b1 :: br =>
    if a0 = b0 ∧ ar = br then some (a0 :: (a1 + b1) :: ar) else none
  | _, _ => none

/-- Shape semantics of `AttentionHead.forward` (src/model.py lines 36-44)
for a head built as `AttentionHead(d, d, d)`.  `F.softmax` and the division
by the scalar `sqrt(k.shape[1])` preserve the shape, so they do not appear
at this level. -/
def attentionHeadShape (d : ℕ) (x : Shape) : Option Shape :=
  (linearShape d d x).bind fun q =>
  (linearShape d d x).bind fun k =>
  (linearShape d d x).bind fun v =>
  (transpose10Shape k).bind fun kT =>
  (matmulShape q kT).bind fun qk =>
  matmulShape qk v

/-- Shape semantics of `MultiHeadAttention.forward` (src/model.py lines
54-60) with `H` heads of width `d`: every head is `AttentionHead(d, d, d)`,
so all head outputs share one shape; their list is concatenated along
`dim=1` (`torch.cat` of an empty list is an error) and merged by
`nn.Linear(H*d, d)`. -/
def multiHeadShape (d H : ℕ) (x : Shape) : Option Shape :=
  (attentionHeadShape d x).bind fun z =>
  (match H with
   | 0 => none
   | m + 1 => (List.replicate m z).foldlM catDim1 z).bind fun zc =>
  linearShape (H * d) d zc

/-- Shape semantics of `FFN.forward` (src/model.py lines 9-26): the layer
list is `Linear(inF, hid), ReLU, Dropout`, then `num_layers - 2` repeats of
`Linear(hid, hid), ReLU, Dropout`, then `Linear(hid, outF)`; `ReLU` and
`Dropout` preserve shapes. -/
def ffnShape (inF hid outF : ℕ) (numLayers : ℤ) (x : Shape) : Option Shape :=
  (linearShape inF hid x).bind fun s =>
  ((List.range (numLayers - 2).toNat).foldlM
    (fun acc _ => linearShape hid hid acc) s).bind fun s =>
  linearShape hid outF s

/-- Shape semantics of `EncoderBlock.forward` (src/model.py lines 70-75):
multi-head attention, residual sum (PyTorch broadcasting), `LayerNorm(V)`,
FFN, residual sum, `LayerNorm(V)`. -/
def encoderBlockShape (d H hid : ℕ) (nl : ℤ) (x : Shape) : Option Shape :=
  (multiHeadShape d H x).bind fun z =>
  (broadcastShapes x z).bind fun r =>
  (layerNormShape d r).bind fun z =>
  (ffnShape d hid d nl z).bind fun z1 =>
  (broadcastShapes z z1).bind fun r2 =>
  layerNormShape d r2

/-- Shape semantics of `Encoder.forward` (src/model.py lines 87-91): the
input is summed (with broadcasting) with the positional-encoding table of
shape `[max_len, d]` — the table is *not* sliced to the input length — and
the result is passed through the `N` encoder blocks in sequence. -/
def encoderShape (d H N L hid : ℕ) (nl : ℤ) (x : Shape) : Option Shape :=
  (broadcastShapes x [L, d]).bind fun z =>
  (List.range N).foldlM (fun acc _ => encoderBlockShape d H hid nl acc) z

/-! ## Utility tables (`src/utils.py`)

`getPositionEncoding` and `getMask` fill a zero matrix cell by cell; the
embedding represents the matrix as a function `ℕ → ℕ → ℝ` and each
assignment `P[r, c] = v` as a pointwise update, folded over the loop
ranges exactly as in the source. -/

/-- One in-place assignment `P[r, c] = v` on a matrix held as a function. -/
def setEntry (P : ℕ → ℕ → ℝ) (r c : ℕ) (v : ℝ) : ℕ → ℕ → ℝ :=
  fun i j => if i = r ∧ j = c then v else P i j

/-- One iteration of the inner loop of `getPositionEncoding`
(src/utils.py lines 7-9): `denominator = n^(2i/d)`,
`P[k, 2i] = sin(k / denominator)`, `P[k, 2i+1] = cos(k / denominator)`. -/
noncomputable def peStep (n : ℝ) (d k : ℕ) (P : ℕ → ℕ → ℝ) (i : ℕ) : ℕ → ℕ → ℝ :=
  setEntry
    (setEntry P k (2 * i) (Real.sin ((k : ℝ) / n ^ (((2 * i : ℕ) : ℝ) / (d : ℝ)))))
    k (2 * i + 1) (Real.cos ((k : ℝ) / n ^ (((2 * i : ℕ) : ℝ) / (d : ℝ))))

/-- The inner loop of `getPositionEncoding` (src/utils.py lines 6-9) for a
fixed row `k`: run `peStep` for each `i` in `range(d/2)` (integer
division, as `int(d/2)` in the source). -/
noncomputable def peRow (n : ℝ) (d k : ℕ) (P : ℕ → ℕ → ℝ) : ℕ → ℕ → ℝ :=
  (List.range (d / 2)).foldl (peStep n d k) P

/-- `getPositionEncoding(seq_len, d, n)` (src/utils.py lines 3-10): start
from `torch.zeros((seq_len, d))` and run the row loop for each
`k < seq_len`. -/
noncomputable def getPositionEncoding (seq_len d : ℕ) (n : ℝ) : ℕ → ℕ → ℝ :=
  (List.range seq_len).foldl (fun P k => peRow n d k P) (fun _ _ => 0)

/-- One iteration of the inner loop of `getMask` (src/utils.py lines
16-17): set `mask[i, j] = 1` when `i <= j`, else leave the matrix alone. -/
noncomputable def maskStep (i : ℕ) (M : ℕ → ℕ → ℝ) (j : ℕ) : ℕ → ℕ → ℝ :=
  if i ≤ j then setEntry M i j 1 else M

/-- The inner loop of `getMask` (src/utils.py lines 15-17) for a fixed row
`i`: run `maskStep` for each `j` in `range(seq_len)`. -/
noncomputable def maskRow (seq_len i : ℕ) (M : ℕ → ℕ → ℝ) : ℕ → ℕ → ℝ :=
  (List.range seq_len).foldl (maskStep i) M

/-- `getMask(seq_len)` (src/utils.py lines 12-18): start from
`torch.zeros((seq_len, seq_len))` and run the row loop for each
`i < seq_len`. -/
noncomputable def getMask (seq_len : ℕ) : ℕ → ℕ → ℝ :=
  (List.range seq_len).foldl (fun M i => maskRow seq_len i M) (fun _ _ => 0)

/-! ## Value semantics: 2-D real tensors

`Tensor2` carries an explicit shape and an entry function; entries outside
the shape are irrelevant junk.  Operations that can raise a PyTorch shape
error return `Option Tensor2`. -/

/-- A 2-D tensor: row count, column count and entries. -/
structure Tensor2 where
  rows : ℕ
  cols : ℕ
  entry : ℕ → ℕ → ℝ

/-- Result size of broadcasting a pair of compatible dimension sizes. -/
def bdim (m n : ℕ) : ℕ :=
  if m = n then m else if m = 1 then n else m

/-- Elementwise `a + b` with PyTorch broadcasting on both dimensions of a
2-D tensor; `none` on incompatible shapes. -/
noncomputable def tAdd (a b : Tensor2) : Option Tensor2 :=
  if (a.rows = b.rows ∨ a.rows = 1 ∨ b.rows = 1) ∧
     (a.cols = b.cols ∨ a.cols = 1 ∨ b.cols = 1) then
    some ⟨bdim a.rows b.rows, bdim a.cols b.cols,
      fun i j =>
        a.entry (if a.rows = 1 then 0 else i) (if a.cols = 1 then 0 else j) +
        b.entry (if b.rows = 1 then 0 else i) (if b.cols = 1 then 0 else j)⟩
  else none

/-- Matrix product of 2-D tensors, shapes unchecked (used only behind the
check in `tMatmul`). -/
noncomputable def tMatmulU (a b : Tensor2) : Tensor2 :=
  ⟨a.rows, b.cols, fun i j => ∑ t ∈ Finset.range a.cols, a.entry i t * b.entry t j⟩

/-- `torch.matmul` on 2-D tensors: inner dimensions must agree. -/
noncomputable def tMatmul (a b : Tensor2) : Option Tensor2 :=
  if a.cols = b.rows then some (tMatmulU a b) else none

/-- `t.transpose(1, 0)` on a 2-D tensor. -/
def tTranspose (a : Tensor2) : Tensor2 :=
  ⟨a.cols, a.rows, fun i j => a.entry j i⟩

/-- `F.softmax` on a 2-D tensor with the default dimension, which PyTorch
resolves to `dim=1` for 2-D input: each row is normalized. -/
noncomputable def tSoftmaxRows (a : Tensor2) : Tensor2 :=
  ⟨a.rows, a.cols, fun i j =>
    Real.exp (a.entry i j) / ∑ t ∈ Finset.range a.cols, Real.exp (a.entry i t)⟩

/-- Division of a tensor by a scalar. -/
noncomputable def tScalarDiv (a : Tensor2) (c : ℝ) : Tensor2 :=
  ⟨a.rows, a.cols, fun i j => a.entry i j / c⟩

/-- Parameters of one `nn.Linear(inF, outF)`: weight `w : outF × inF` and
bias `b : outF`, applied as `y = x Wᵀ + b`. -/
structure LinearP where
  inF : ℕ
  outF : ℕ
  w : ℕ → ℕ → ℝ
  b : ℕ → ℝ

/-- Application of an `nn.Linear` to a 2-D input, shape unchecked. -/
noncomputable def tLinearU (p : LinearP) (x : Tensor2) : Tensor2 :=
  ⟨x.rows, p.outF, fun i j =>
    (∑ t ∈ Finset.range p.inF, x.entry i t * p.w j t) + p.b j⟩

/-- `nn.Linear` on a 2-D input: the input width must equal `inF`. -/
noncomputable def tLinear (p : LinearP) (x : Tensor2) : Option Tensor2 :=
  if x.cols = p.inF then some (tLinearU p x) else none

/-- Parameters of one `nn.LayerNorm(dim)` with learned scale `γ` and shift
`β` and stability constant `eps`. -/
structure LayerNormP where
  dim : ℕ
  γ : ℕ → ℝ
  β : ℕ → ℝ
  eps : ℝ

/-- `nn.LayerNorm(dim)` on a 2-D input: each row is shifted to zero mean
and scaled by the inverse of `sqrt(biased variance + eps)`, then scaled and
shifted per feature.  The last dimension must equal `dim`. -/
noncomputable def tLayerNorm (p : LayerNormP) (x : Tensor2) : Option Tensor2 :=
  if x.cols = p.dim then
    some ⟨x.rows, x.cols, fun i j =>
      (x.entry i j - (∑ t ∈ Finset.range x.cols, x.entry i t) / (x.cols : ℝ)) /
        Real.sqrt
          ((∑ t ∈ Finset.range x.cols,
              (x.entry i t - (∑ u ∈ Finset.range x.cols, x.entry i u) / (x.cols : ℝ)) ^ 2) /
            (x.cols : ℝ) + p.eps) *
        p.γ j + p.β j⟩
  else none

/-! ## Value semantics of the model components (`src/model.py`) -/

/-- Parameters of one `AttentionHead`: `__init__` (lines 30-34) builds
`self.Q = nn.Linear(Q, Q)`, `self.K = nn.Linear(K, K)`,
`self.V = nn.Linear(V, V)`. -/
structure AttentionHeadP where
  Q : LinearP
  K : LinearP
  V : LinearP

/-- `AttentionHead.forward` (src/model.py lines 36-44):
`q = Q(x)`, `k = K(x)`, `v = V(x)`, `q_k_transpose = q @ k.transpose(1,0)`,
`q_k_softmax = softmax(q_k_transpose) / sqrt(k.shape[1])`,
`z = q_k_softmax @ v`.  The division by `sqrt(k.shape[1])` is applied to
the *output* of the softmax, exactly as written in line 42. -/
noncomputable def attentionHeadForward (h : AttentionHeadP) (x : Tensor2) : Option Tensor2 :=
  (tLinear h.Q x).bind fun q =>
  (tLinear h.K x).bind fun k =>
  (tLinear h.V x).bind fun _v =>
  (tMatmul q (tTranspose k)).bind fun qk =>
  tMatmul (tScalarDiv (tSoftmaxRows qk) (Real.sqrt (k.cols : ℝ))) _v

/-- The intermediate `q_k_softmax` of `AttentionHead.forward` (line 42):
the matrix that is multiplied with `v` to produce the head output. -/
noncomputable def attnWeights (h : AttentionHeadP) (x : Tensor2) : Option Tensor2 :=
  (tLinear h.Q x).bind fun q =>
  (tLinear h.K x).bind fun k =>
  (tMatmul q (tTranspose k)).bind fun qk =>
  some (tScalarDiv (tSoftmaxRows qk) (Real.sqrt (k.cols : ℝ)))

/-- The attention output as the code computes it, given the projected
`q`, `k`, `v`: `(softmax(q kᵀ) / sqrt(k.cols)) v` — scaling *after* the
row-wise softmax. -/
noncomputable def codeAttention (q k v : Tensor2) : Tensor2 :=
  tMatmulU (tScalarDiv (tSoftmaxRows (tMatmulU q (tTranspose k))) (Real.sqrt (k.cols : ℝ))) v

/-- Modelled from the spec: the attention output as §4.1's contract states
it, `softmax(q kᵀ / sqrt(d_k)) v` — scaling applied to the similarity
matrix *before* the row-wise softmax.  Used only to compare the spec's
formula with the code's. -/
noncomputable def specAttention (q k v : Tensor2) : Tensor2 :=
  tMatmulU (tSoftmaxRows (tScalarDiv (tMatmulU q (tTranspose k)) (Real.sqrt (k.cols : ℝ)))) v

/-- Parameters of one `MultiHeadAttention` (src/model.py lines 47-53): a
list of heads and the merge projection `nn.Linear(num_heads*V, V)`. -/
structure MultiHeadP where
  heads : List AttentionHeadP
  linear : LinearP

/-- `torch.cat([a, b], dim=1)` on 2-D tensors: row counts must agree. -/
noncomputable def tHCat (a b : Tensor2) : Option Tensor2 :=
  if a.rows = b.rows then
    some ⟨a.rows, a.cols + b.cols,
      fun i j => if j < a.cols then a.entry i j else b.entry i (j - a.cols)⟩
  else none

/-- `torch.cat(zs, dim=1)` on a list of 2-D tensors; the empty list is a
PyTorch error. -/
noncomputable def tCatCols : List Tensor2 → Option Tensor2
  | [] => none
  | t :: ts => ts.foldlM tHCat t

/-- `MultiHeadAttention.forward` (src/model.py lines 54-60): run every head
on `x`, concatenate the outputs along `dim=1`, apply the merge linear. -/
noncomputable def multiHeadForward (m : MultiHeadP) (x : Tensor2) : Option Tensor2 :=
  (m.heads.mapM fun h => attentionHeadForward h x).bind fun zs =>
  (tCatCols zs).bind fun zc =>
  tLinear m.linear zc

/-- One layer of an `nn.Sequential` as built by `FFN.__init__`. -/
inductive LayerV where
  | linear (p : LinearP)
  | relu
  | dropout (p : ℝ)

/-- Forward of one layer.  `nn.Dropout` in evaluation mode is the identity;
`nn.ReLU` clamps entries at zero. -/
noncomputable def layerForward : LayerV → Tensor2 → Option Tensor2
  | .linear p, x => tLinear p x
  | .relu, x => some ⟨x.rows, x.cols, fun i j => max (x.entry i j) 0⟩
  | .dropout _, x => some x

/-- `nn.Sequential` applied to a layer list, as `FFN.forward`
(src/model.py lines 25-26) does. -/
noncomputable def ffnForward (ls : List LayerV) (x : Tensor2) : Option Tensor2 :=
  ls.foldlM (fun z l => layerForward l z) x

/-- The weight families used by `FFN.__init__`: one linear for the input
layer, one per hidden repeat, one for the output layer. -/
structure FFNParams where
  wIn : ℕ → ℕ → ℝ
  bIn : ℕ → ℝ
  wMid : ℕ → ℕ → ℕ → ℝ
  bMid : ℕ → ℕ → ℝ
  wOut : ℕ → ℕ → ℝ
  bOut : ℕ → ℝ

/-- The layer list built by `FFN.__init__` (src/model.py lines 9-23):
`Linear(input_size, hidden_size), ReLU, Dropout(p)`, then one
`Linear(hidden_size, hidden_size), ReLU, Dropout(p)` triple per iteration
of `range(num_layers - 2)` (empty for `num_layers ≤ 2`), then
`Linear(hidden_size, output_size)`. -/
noncomputable def mkFFNLayers (input_size hidden_size output_size : ℕ) (num_layers : ℤ)
    (dropout_p : ℝ) (F : FFNParams) : List LayerV :=
  [LayerV.linear ⟨input_size, hidden_size, F.wIn, F.bIn⟩, LayerV.relu, LayerV.dropout dropout_p]
    ++ ((List.range (num_layers - 2).toNat).map fun t =>
          [LayerV.linear ⟨hidden_size, hidden_size, F.wMid t, F.bMid t⟩,
           LayerV.relu, LayerV.dropout dropout_p]).flatten
    ++ [LayerV.linear ⟨hidden_size, output_size, F.wOut, F.bOut⟩]

/-- Parameters of one `EncoderBlock` (src/model.py lines 62-68). -/
structure EncoderBlockP where
  ffn : List LayerV
  mha : MultiHeadP
  ln1 : LayerNormP
  ln2 : LayerNormP

/-- `EncoderBlock.forward` (src/model.py lines 70-75): multi-head
attention, residual sum and `layer_norm1`, FFN, residual sum and
`layer_norm2`. -/
noncomputable def encoderBlockForward (p : EncoderBlockP) (x : Tensor2) : Option Tensor2 :=
  (multiHeadForward p.mha x).bind fun z =>
  (tAdd x z).bind fun r =>
  (tLayerNorm p.ln1 r).bind fun z =>
  (ffnForward p.ffn z).bind fun z1 =>
  (tAdd z z1).bind fun r2 =>
  tLayerNorm p.ln2 r2

/-- Parameters of one `Encoder` (src/model.py lines 77-85): the block list
and the positional-encoding tensor
`torch.tensor(getPositionEncoding(seq_len=max_len, d=V)).float()` of shape
`[max_len, V]`. -/
structure EncoderP where
  blocks : List EncoderBlockP
  posEncoding : Tensor2

/-- `Encoder.forward` (src/model.py lines 87-91): `z = x + pos_encoding`
(the whole table, no slicing), then the blocks in order. -/
noncomputable def encoderForward (p : EncoderP) (x : Tensor2) : Option Tensor2 :=
  (tAdd x p.posEncoding).bind fun z =>
  p.blocks.foldlM (fun z b => encoderBlockForward b z) z

/-! ## Architecture level: the `__init__` methods

None of the constructors in `src/model.py` performs any validation, so
their embeddings build the architecture unconditionally; the `Option`
result records that the source has no failure path for these inputs
(sizes are naturals; `num_layers` is an integer because Python's
`range(num_layers - 2)` accepts and ignores negative bounds). -/

/-- One layer as recorded in an architecture description. -/
inductive LayerSpec where
  | linear (inF outF : ℕ)
  | relu
  | dropout (p : ℝ)


/-- The layer list `FFN.__init__` (src/model.py lines 9-23) assembles:
input linear, ReLU, dropout, `(num_layers - 2).toNat` hidden triples,
output linear. -/
def ffnLayers (input_size hidden_size output_size : ℕ) (num_layers : ℤ)
    (dropout_p : ℝ) : List LayerSpec :=
  [LayerSpec.linear input_size hidden_size, LayerSpec.relu, LayerSpec.dropout dropout_p]
    ++ ((List.range (num_layers - 2).toNat).map fun _ =>
          [LayerSpec.linear hidden_size hidden_size, LayerSpec.relu,
           LayerSpec.dropout dropout_p]).flatten
    ++ [LayerSpec.linear hidden_size output_size]

/-- `FFN.__init__`: builds the layer list; no validation of `num_layers`
or the sizes occurs in the source. -/
def FFN_init (input_size hidden_size output_size : ℕ) (num_layers : ℤ)
    (dropout_p : ℝ) : Option (List LayerSpec) :=
  some (ffnLayers input_size hidden_size output_size num_layers dropout_p)

/-- Architecture of one `AttentionHead`: the sizes of its three square
linear projections. -/
structure AttentionHeadArch where
  qDim : ℕ
  kDim : ℕ
  vDim : ℕ


/-- `AttentionHead.__init__` (src/model.py lines 30-34): three
`nn.Linear(s, s)` modules; no validation. -/
def AttentionHead_init (Q K V : ℕ) : Option AttentionHeadArch :=
  some ⟨Q, K, V⟩

/-- Architecture of one `MultiHeadAttention`: the heads and the merge
linear `nn.Linear(num_heads*V, V)`. -/
structure MultiHeadArch where
  heads : List AttentionHeadArch
  mergeIn : ℕ
  mergeOut : ℕ


/-- `MultiHeadAttention.__init__` (src/model.py lines 47-53): the merge
linear, then `num_heads` fresh `AttentionHead(Q, K, V)`; no validation —
`num_heads = 0` simply yields an empty head list. -/
def MultiHeadAttention_init (Q K V num_heads : ℕ) : Option MultiHeadArch :=
  ((List.range num_heads).mapM fun _ => AttentionHead_init Q K V).bind fun hs =>
  some ⟨hs, num_heads * V, V⟩

/-- Architecture of one `EncoderBlock`: its FFN, its multi-head attention
and the dimensions of its two `nn.LayerNorm(V)` modules. -/
structure EncoderBlockArch where
  ffn : List LayerSpec
  mha : MultiHeadArch
  ln1Dim : ℕ
  ln2Dim : ℕ


/-- `EncoderBlock.__init__` (src/model.py lines 62-68): builds
`FFN(V, hidden_size, V, num_layers, dropout_p)`,
`MultiHeadAttention(Q, K, V, num_heads)` and two `nn.LayerNorm(V)`. -/
def EncoderBlock_init (Q K V num_heads hidden_size : ℕ) (num_layers : ℤ)
    (dropout_p : ℝ) : Option EncoderBlockArch :=
  (FFN_init V hidden_size V num_layers dropout_p).bind fun f =>
  (MultiHeadAttention_init Q K V num_heads).bind fun m =>
  some ⟨f, m, V, V⟩

/-- Architecture of one `Encoder`: the block list and the shape
`[max_len, V]` of the positional-encoding table. -/
structure EncoderArch where
  blocks : List EncoderBlockArch
  posRows : ℕ
  posCols : ℕ


/-- `Encoder.__init__` (src/model.py lines 78-85): `num_encoder` fresh
blocks plus the positional table `getPositionEncoding(seq_len=max_len,
d=V)` of shape `[max_len, V]`; no validation — zero sizes simply produce
empty module lists or an empty table. -/
def Encoder_init (Q K V num_heads num_encoder max_len hidden_size : ℕ)
    (num_layers : ℤ) (dropout_p : ℝ) : Option EncoderArch :=
  ((List.range num_encoder).mapM fun _ =>
      EncoderBlock_init Q K V num_heads hidden_size num_layers dropout_p).bind fun bs =>
  some ⟨bs, max_len, V⟩

/-! ## Well-formedness of parameter shapes

These predicates record the dimensions that the constructors in
`src/model.py` give to the learned parameters; the forward theorems take
them as hypotheses. -/

/-- The linear has input width `i` and output width `o`. -/
def linWF (p : LinearP) (i o : ℕ) : Prop := p.inF = i ∧ p.outF = o

/-- The head's three projections are `nn.Linear(d, d)`, as
`AttentionHead.__init__` builds them for width `d`. -/
def headWF (h : AttentionHeadP) (d : ℕ) : Prop :=
  linWF h.Q d d ∧ linWF h.K d d ∧ linWF h.V d d

/-- The multi-head module has at least one head, every head of width `d`,
and the merge projection `nn.Linear(num_heads*d, d)`. -/
def mhaWF (m : MultiHeadP) (d : ℕ) : Prop :=
  m.heads ≠ [] ∧ (∀ h ∈ m.heads, headWF h d) ∧
    linWF m.linear (m.heads.length * d) d

/-- `SeqWF ls a b`: the layer list `ls` maps width-`a` input to width-`b`
output (linears chain, ReLU and dropout preserve width). -/
inductive SeqWF : List LayerV → ℕ → ℕ → Prop where
  | nil (a : ℕ) : SeqWF [] a a
  | lin {p : LinearP} {ls : List LayerV} {a b c : ℕ} :
      linWF p a b → SeqWF ls b c → SeqWF (LayerV.linear p :: ls) a c
  | relu {ls : List LayerV} {a b : ℕ} : SeqWF ls a b → SeqWF (LayerV.relu :: ls) a b
  | drop {ls : List LayerV} {a b : ℕ} (q : ℝ) :
      SeqWF ls a b → SeqWF (LayerV.dropout q :: ls) a b

/-- The block's parameters have the shapes `EncoderBlock.__init__` gives
them for width `d`. -/
def blockWF (b : EncoderBlockP) (d : ℕ) : Prop :=
  mhaWF b.mha d ∧ SeqWF b.ffn d d ∧ b.ln1.dim = d ∧ b.ln2.dim = d

/-! ## Concrete fixtures

Small parameter instantiations used to evaluate the embedded code on
explicit inputs. -/

/-- An `nn.Linear(d, d)` whose weight and bias are zero. -/
def zeroLin (d : ℕ) : LinearP := ⟨d, d, fun _ _ => 0, fun _ => 0⟩

/-- An `nn.Linear(d, d)` with zero weight and all-ones bias: it maps every
input to the all-ones matrix. -/
def onesBiasLin (d : ℕ) : LinearP := ⟨d, d, fun _ _ => 0, fun _ => 1⟩

/-- A width-4 head with zero query/key projections and an all-ones value:
its similarity matrix is zero and `v` is all ones. -/
def h0 : AttentionHeadP := ⟨zeroLin 4, zeroLin 4, onesBiasLin 4⟩

/-- A single zero row of width 4. -/
def x0 : Tensor2 := ⟨1, 4, fun _ _ => 0⟩

/-- A zero-length sequence of width 4. -/
def xEmpty : Tensor2 := ⟨0, 4, fun _ _ => 0⟩

/-- All-zero FFN weight families. -/
def zeroFFNP : FFNParams :=
  ⟨fun _ _ => 0, fun _ => 0, fun _ _ _ => 0, fun _ _ => 0, fun _ _ => 0, fun _ => 0⟩

/-- An `nn.LayerNorm(d)` at its default initialization: scale one, shift
zero, `eps = 1e-5`. -/
noncomputable def defaultLN (d : ℕ) : LayerNormP := ⟨d, fun _ => 1, fun _ => 0, 1 / 100000⟩

/-- A width-`d` head with zero projections. -/
def zeroHead (d : ℕ) : AttentionHeadP := ⟨zeroLin d, zeroLin d, zeroLin d⟩

/-- A single-head multi-head attention of width `d` with zero merge. -/
def zeroMHA (d : ℕ) : MultiHeadP := ⟨[zeroHead d], ⟨1 * d, d, fun _ _ => 0, fun _ => 0⟩⟩

/-- An encoder block of width `d` with all-zero weights, a two-layer FFN
of hidden size `d` and default layer norms. -/
noncomputable def zeroBlock (d : ℕ) : EncoderBlockP :=
  ⟨mkFFNLayers d d d 2 0 zeroFFNP, zeroMHA d, defaultLN d, defaultLN d⟩

/-- A one-block encoder of width 2 built with `max_len = 3`: its
positional table has shape `[3, 2]`. -/
noncomputable def encL3 : EncoderP :=
  ⟨[zeroBlock 2], ⟨3, 2, getPositionEncoding 3 2 10000⟩⟩

/-- A one-block encoder of width 2 built with `max_len = 1`: its
positional table has shape `[1, 2]`. -/
noncomputable def encL1 : EncoderP :=
  ⟨[zeroBlock 2], ⟨1, 2, getPositionEncoding 1 2 10000⟩⟩

/-- A zero input of shape `[2, 2]`. -/
def x22 : Tensor2 := ⟨2, 2, fun _ _ => 0⟩

/-- A zero input of shape `[3, 2]`. -/
def x32 : Tensor2 := ⟨3, 2, fun _ _ => 0⟩

/-- A zero input of shape `[4, 2]`. -/
def x42 : Tensor2 := ⟨4, 2, fun _ _ => 0⟩

/-- A zero-length input of width 2. -/
def x02 : Tensor2 := ⟨0, 2, fun _ _ => 0⟩

/-! ## Closed forms of the utility tables -/

theorem setEntry_same (P : ℕ → ℕ → ℝ) (r c : ℕ) (v : ℝ) : setEntry P r c v r c = v := by
  simp [setEntry]

theorem setEntry_ne (P : ℕ → ℕ → ℝ) (r c : ℕ) (v : ℝ) {i j : ℕ}
    (h : ¬(i = r ∧ j = c)) : setEntry P r c v i j = P i j := by
  simp only [setEntry, if_neg h]

theorem peRow_apply_ne (n : ℝ) (d k : ℕ) (P : ℕ → ℕ → ℝ) (r c : ℕ) (h : r ≠ k) :
    peRow n d k P r c = P r c := by
  unfold peRow
  generalize List.range (d / 2) = l
  induction l generalizing P with
  | nil => rfl
  | cons a t ih =>
    rw [List.foldl_cons, ih]
    unfold peStep
    rw [setEntry_ne _ _ _ _ (by tauto), setEntry_ne _ _ _ _ (by tauto)]

theorem peLoop_sin (n : ℝ) (d k m i : ℕ) (hi : i < m) (P : ℕ → ℕ → ℝ) :
    ((List.range m).foldl (peStep n d k) P) k (2 * i)
      = Real.sin ((k : ℝ) / n ^ (((2 * i : ℕ) : ℝ) / (d : ℝ))) := by
  induction m with
  | zero => omega
  | succ m ih =>
    rw [List.range_succ, List.foldl_append, List.foldl_cons, List.foldl_nil]
    rcases Nat.lt_succ_iff_lt_or_eq.mp hi with h | h
    · unfold peStep
      rw [setEntry_ne _ _ _ _ (by omega), setEntry_ne _ _ _ _ (by omega)]
      exact ih h
    · subst h
      unfold peStep
      rw [setEntry_ne _ _ _ _ (by omega), setEntry_same]

theorem peLoop_cos (n : ℝ) (d k m i : ℕ) (hi : i < m) (P : ℕ → ℕ → ℝ) :
    ((List.range m).foldl (peStep n d k) P) k (2 * i + 1)
      = Real.cos ((k : ℝ) / n ^ (((2 * i : ℕ) : ℝ) / (d : ℝ))) := by
  induction m with
  | zero => omega
  | succ m ih =>
    rw [List.range_succ, List.foldl_append, List.foldl_cons, List.foldl_nil]
    rcases Nat.lt_succ_iff_lt_or_eq.mp hi with h | h
    · unfold peStep
      rw [setEntry_ne _ _ _ _ (by omega), setEntry_ne _ _ _ _ (by omega)]
      exact ih h
    · subst h
      unfold peStep
      rw [setEntry_same]

theorem peRow_sin (n : ℝ) (d k i : ℕ) (hi : i < d / 2) (P : ℕ → ℕ → ℝ) :
    peRow n d k P k (2 * i) = Real.sin ((k : ℝ) / n ^ (((2 * i : ℕ) : ℝ) / (d : ℝ))) :=
  peLoop_sin n d k (d / 2) i hi P

theorem peRow_cos (n : ℝ) (d k i : ℕ) (hi : i < d / 2) (P : ℕ → ℕ → ℝ) :
    peRow n d k P k (2 * i + 1) = Real.cos ((k : ℝ) / n ^ (((2 * i : ℕ) : ℝ) / (d : ℝ))) :=
  peLoop_cos n d k (d / 2) i hi P

theorem getPositionEncoding_succ (s d : ℕ) (n : ℝ) :
    getPositionEncoding (s + 1) d n = peRow n d s (getPositionEncoding s d n) := by
  unfold getPositionEncoding
  rw [List.range_succ, List.foldl_append, List.foldl_cons, List.foldl_nil]

theorem getPositionEncoding_apply_row (s d k : ℕ) (n : ℝ) (hk : k < s) (c : ℕ) :
    getPositionEncoding s d n k c = peRow n d k (getPositionEncoding k d n) k c := by
  induction s with
  | zero => omega
  | succ m ih =>
    rw [getPositionEncoding_succ]
    rcases Nat.lt_succ_iff_lt_or_eq.mp hk with h | h
    · rw [peRow_apply_ne _ _ _ _ _ _ (by omega)]
      exact ih h
    · subst h; rfl

theorem maskRow_apply_ne (s i : ℕ) (M : ℕ → ℕ → ℝ) (r c : ℕ) (h : r ≠ i) :
    maskRow s i M r c = M r c := by
  unfold maskRow
  generalize List.range s = l
  induction l generalizing M with
  | nil => rfl
  | cons a t ih =>
    rw [List.foldl_cons, ih]
    unfold maskStep
    by_cases hle : i ≤ a
    · rw [if_pos hle, setEntry_ne _ _ _ _ (by tauto)]
    · rw [if_neg hle]

theorem maskLoop_cols_ge (m i c : ℕ) (M : ℕ → ℕ → ℝ) (hc : m ≤ c) :
    ((List.range m).foldl (maskStep i) M) i c = M i c := by
  induction m with
  | zero => rfl
  | succ m ih =>
    rw [List.range_succ, List.foldl_append, List.foldl_cons, List.foldl_nil]
    unfold maskStep
    by_cases hle : i ≤ m
    · rw [if_pos hle, setEntry_ne _ _ _ _ (by omega)]
      exact ih (by omega)
    · rw [if_neg hle]
      exact ih (by omega)

theorem maskRow_apply (s i j : ℕ) (M : ℕ → ℕ → ℝ) (hj : j < s) :
    maskRow s i M i j = if i ≤ j then 1 else M i j := by
  unfold maskRow
  induction s with
  | zero => omega
  | succ m ih =>
    rw [List.range_succ, List.foldl_append, List.foldl_cons, List.foldl_nil]
    rcases Nat.lt_succ_iff_lt_or_eq.mp hj with h | h
    · unfold maskStep
      by_cases hle : i ≤ m
      · rw [if_pos hle, setEntry_ne _ _ _ _ (by omega)]
        exact ih h
      · rw [if_neg hle]
        exact ih h
    · subst h
      unfold maskStep
      by_cases hle : i ≤ j
      · rw [if_pos hle, setEntry_same, if_pos hle]
      · rw [if_neg hle, if_neg hle]
        exact maskLoop_cols_ge j i j M (le_refl j)

theorem maskRows_ge (s r i c : ℕ) (M : ℕ → ℕ → ℝ) (hr : r ≤ i) :
    ((List.range r).foldl (fun M a => maskRow s a M) M) i c = M i c := by
  induction r with
  | zero => rfl
  | succ m ih =>
    rw [List.range_succ, List.foldl_append, List.foldl_cons, List.foldl_nil]
    rw [maskRow_apply_ne _ _ _ _ _ (by omega)]
    exact ih (by omega)

theorem maskRows_apply (s r i j : ℕ) (M : ℕ → ℕ → ℝ) (hi : i < r) (hj : j < s) :
    ((List.range r).foldl (fun M a => maskRow s a M) M) i j
      = if i ≤ j then 1 else M i j := by
  induction r with
  | zero => omega
  | succ m ih =>
    rw [List.range_succ, List.foldl_append, List.foldl_cons, List.foldl_nil]
    rcases Nat.lt_succ_iff_lt_or_eq.mp hi with h | h
    · rw [maskRow_apply_ne _ _ _ _ _ (by omega)]
      exact ih h
    · subst h
      rw [maskRow_apply _ _ _ _ hj]
      by_cases hle : i ≤ j
      · rw [if_pos hle, if_pos hle]
      · rw [if_neg hle, if_neg hle]
        exact maskRows_ge s i i j M (le_refl i)

theorem getMask_apply (s i j : ℕ) (hi : i < s) (hj : j < s) :
    getMask s i j = if i ≤ j then (1 : ℝ) else 0 := by
  unfold getMask
  rw [maskRows_apply s s i j _ hi hj]

/-- **C4**: for every `seq_len > 0`, even `d > 0` and base `n = 10000`,
`getPositionEncoding(seq_len, d)` deterministically returns the table with
`table[k, 2i] = sin(k / n^(2i/d))` and `table[k, 2i+1] = cos(k / n^(2i/d))`
for all `k < seq_len` and `i < d/2`; in particular row `k = 0` is
`[0, 1, 0, 1, ...]`. -/
theorem getPositionEncoding_closed_form (seq_len d k i j : ℕ)
    (hd2 : d % 2 = 0) (hd : 0 < d) (hs : 0 < seq_len)
    (hk : k < seq_len) (hi : i < d / 2) (hj : j < d) :
    getPositionEncoding seq_len d 10000 k (2 * i)
        = Real.sin ((k : ℝ) / (10000 : ℝ) ^ (((2 * i : ℕ) : ℝ) / (d : ℝ))) ∧
    getPositionEncoding seq_len d 10000 k (2 * i + 1)
        = Real.cos ((k : ℝ) / (10000 : ℝ) ^ (((2 * i : ℕ) : ℝ) / (d : ℝ))) ∧
    getPositionEncoding seq_len d 10000 0 j = (if j % 2 = 0 then 0 else 1) := by
  refine ⟨?_, ?_, ?_⟩
  · rw [getPositionEncoding_apply_row seq_len d k 10000 hk, peRow_sin _ _ _ _ hi]
  · rw [getPositionEncoding_apply_row seq_len d k 10000 hk, peRow_cos _ _ _ _ hi]
  · by_cases hpar : j % 2 = 0
    · obtain ⟨t, rfl⟩ : ∃ t, j = 2 * t := ⟨j / 2, by omega⟩
      have ht : t < d / 2 := by omega
      rw [if_pos hpar, getPositionEncoding_apply_row seq_len d 0 10000 hs,
        peRow_sin _ _ _ _ ht]
      simp
    · obtain ⟨t, rfl⟩ : ∃ t, j = 2 * t + 1 := ⟨j / 2, by omega⟩
      have ht : t < d / 2 := by omega
      rw [if_neg hpar, getPositionEncoding_apply_row seq_len d 0 10000 hs,
        peRow_cos _ _ _ _ ht]
      simp

theorem getPositionEncoding_closed_form_witness :
    (4 % 2 = 0 ∧ 0 < 4 ∧ 0 < 5 ∧ 0 < 5 ∧ 1 < 4 / 2 ∧ 1 < 4) ∧
    (getPositionEncoding 5 4 10000 0 (2 * 1)
        = Real.sin ((0 : ℕ) / (10000 : ℝ) ^ (((2 * 1 : ℕ) : ℝ) / (4 : ℝ))) ∧
     getPositionEncoding 5 4 10000 0 (2 * 1 + 1)
        = Real.cos ((0 : ℕ) / (10000 : ℝ) ^ (((2 * 1 : ℕ) : ℝ) / (4 : ℝ))) ∧
     getPositionEncoding 5 4 10000 0 1 = (if 1 % 2 = 0 then 0 else 1)) :=
  ⟨by norm_num,
   getPositionEncoding_closed_form 5 4 0 1 1 (by norm_num) (by norm_num)
     (by norm_num) (by norm_num) (by norm_num) (by norm_num)⟩

/-- **C9**: for every `seq_len > 0`, `getMask(seq_len)` returns the
`[seq_len, seq_len]` matrix whose entry at `(i, j)` is `1` exactly when
`i ≤ j` and `0` otherwise; in particular `getMask(3)` is exactly
`[[1,1,1],[0,1,1],[0,0,1]]`. -/
theorem getMask_closed_form (seq_len i j : ℕ) (hi : i < seq_len) (hj : j < seq_len) :
    getMask seq_len i j = (if i ≤ j then (1 : ℝ) else 0) ∧
    ((List.range 3).map fun a => (List.range 3).map fun b => getMask 3 a b)
      = [[1, 1, 1], [0, 1, 1], [0, 0, 1]] := by
  refine ⟨getMask_apply seq_len i j hi hj, ?_⟩
  have h : ∀ a b : ℕ, a < 3 → b < 3 → getMask 3 a b = if a ≤ b then (1 : ℝ) else 0 :=
    fun a b ha hb => getMask_apply 3 a b ha hb
  simp only [show List.range 3 = [0, 1, 2] from rfl, List.map_cons, List.map_nil]
  rw [h 0 0 (by omega) (by omega), h 0 1 (by omega) (by omega),
    h 0 2 (by omega) (by omega), h 1 0 (by omega) (by omega),
    h 1 1 (by omega) (by omega), h 1 2 (by omega) (by omega),
    h 2 0 (by omega) (by omega), h 2 1 (by omega) (by omega),
    h 2 2 (by omega) (by omega)]
  norm_num

theorem getMask_closed_form_witness :
    ((1 : ℕ) < 3 ∧ (2 : ℕ) < 3) ∧
    (getMask 3 1 2 = (if 1 ≤ 2 then (1 : ℝ) else 0) ∧
     ((List.range 3).map fun a => (List.range 3).map fun b => getMask 3 a b)
       = [[1, 1, 1], [0, 1, 1], [0, 0, 1]]) :=
  ⟨by norm_num, getMask_closed_form 3 1 2 (by norm_num) (by norm_num)⟩

/-! ## Shape behaviour of the value-level operations -/

theorem some_bind {α β : Type} (a : α) (f : α → Option β) : (some a).bind f = f a := rfl

theorem bdim_self (m : ℕ) : bdim m m = m := by simp [bdim]

theorem tLinear_eq (p : LinearP) (x : Tensor2) (h : x.cols = p.inF) :
    tLinear p x = some (tLinearU p x) := by
  simp [tLinear, h]

theorem tMatmul_eq (a b : Tensor2) (h : a.cols = b.rows) :
    tMatmul a b = some (tMatmulU a b) := by
  simp [tMatmul, h]

theorem tAdd_same (a b : Tensor2) (h1 : a.rows = b.rows) (h2 : a.cols = b.cols) :
    ∃ c, tAdd a b = some c ∧ c.rows = a.rows ∧ c.cols = a.cols ∧
      ∀ i j, i < a.rows → j < a.cols → c.entry i j = a.entry i j + b.entry i j := by
  unfold tAdd
  rw [if_pos ⟨Or.inl h1, Or.inl h2⟩]
  refine ⟨_, rfl, ?_, ?_, ?_⟩
  · show bdim a.rows b.rows = a.rows
    rw [← h1, bdim_self]
  · show bdim a.cols b.cols = a.cols
    rw [← h2, bdim_self]
  · intro i j hi hj
    have e1 : (if a.rows = 1 then 0 else i) = i := by
      by_cases h : a.rows = 1
      · rw [if_pos h]; omega
      · rw [if_neg h]
    have e2 : (if a.cols = 1 then 0 else j) = j := by
      by_cases h : a.cols = 1
      · rw [if_pos h]; omega
      · rw [if_neg h]
    have e3 : (if b.rows = 1 then 0 else i) = i := by
      by_cases h : b.rows = 1
      · rw [if_pos h]; omega
      · rw [if_neg h]
    have e4 : (if b.cols = 1 then 0 else j) = j := by
      by_cases h : b.cols = 1
      · rw [if_pos h]; omega
      · rw [if_neg h]
    show a.entry _ _ + b.entry _ _ = _
    rw [e1, e2, e3, e4]

theorem tLayerNorm_some (p : LayerNormP) (x : Tensor2) (h : x.cols = p.dim) :
    ∃ z, tLayerNorm p x = some z ∧ z.rows = x.rows ∧ z.cols = x.cols := by
  unfold tLayerNorm
  rw [if_pos h]
  exact ⟨_, rfl, rfl, rfl⟩

/-- On well-shaped input, `AttentionHead.forward` succeeds and returns
exactly the scaled-after-softmax composition of its projections. -/
theorem attentionHeadForward_eq (h : AttentionHeadP) (d : ℕ) (hw : headWF h d)
    (x : Tensor2) (hx : x.cols = d) :
    attentionHeadForward h x
      = some (codeAttention (tLinearU h.Q x) (tLinearU h.K x) (tLinearU h.V x)) := by
  obtain ⟨⟨hqi, hqo⟩, ⟨hki, hko⟩, ⟨hvi, hvo⟩⟩ := hw
  unfold attentionHeadForward codeAttention
  rw [tLinear_eq h.Q x (by rw [hx, hqi]), some_bind,
    tLinear_eq h.K x (by rw [hx, hki]), some_bind,
    tLinear_eq h.V x (by rw [hx, hvi]), some_bind,
    tMatmul_eq _ _ (by show h.Q.outF = (tLinearU h.K x).cols
                       show h.Q.outF = h.K.outF
                       rw [hqo, hko]), some_bind,
    tMatmul_eq _ _ rfl]

theorem attnWeights_eq (h : AttentionHeadP) (d : ℕ) (hw : headWF h d)
    (x : Tensor2) (hx : x.cols = d) :
    attnWeights h x
      = some (tScalarDiv
          (tSoftmaxRows (tMatmulU (tLinearU h.Q x) (tTranspose (tLinearU h.K x))))
          (Real.sqrt ((tLinearU h.K x).cols : ℝ))) := by
  obtain ⟨⟨hqi, hqo⟩, ⟨hki, hko⟩, ⟨hvi, hvo⟩⟩ := hw
  unfold attnWeights
  rw [tLinear_eq h.Q x (by rw [hx, hqi]), some_bind,
    tLinear_eq h.K x (by rw [hx, hki]), some_bind,
    tMatmul_eq _ _ (by show h.Q.outF = (tLinearU h.K x).cols
                       show h.Q.outF = h.K.outF
                       rw [hqo, hko]), some_bind]

theorem mapM_heads_shape (heads : List AttentionHeadP) (d : ℕ)
    (hh : ∀ h ∈ heads, headWF h d) (x : Tensor2) (hx : x.cols = d) :
    ∃ zs, (heads.mapM fun h => attentionHeadForward h x) = some zs ∧
      zs.length = heads.length ∧ ∀ z ∈ zs, z.rows = x.rows ∧ z.cols = d := by
  induction heads with
  | nil => exact ⟨[], rfl, rfl, by simp⟩
  | cons h t ih =>
    obtain ⟨zs, hzs, hlen, hall⟩ := ih fun g hg => hh g (List.mem_cons_of_mem _ hg)
    have hwh : headWF h d := hh h (List.mem_cons_self _ _)
    refine ⟨codeAttention (tLinearU h.Q x) (tLinearU h.K x) (tLinearU h.V x) :: zs,
      ?_, by simp [hlen], ?_⟩
    · rw [List.mapM_cons, attentionHeadForward_eq h d hwh x hx, hzs]
      rfl
    · intro z hz
      rcases List.mem_cons.mp hz with rfl | hz
      · exact ⟨rfl, hwh.2.2.2⟩
      · exact hall z hz

theorem tCat_fold_shape (ts : List Tensor2) (s d : ℕ)
    (hall : ∀ z ∈ ts, z.rows = s ∧ z.cols = d) (acc : Tensor2) (hr : acc.rows = s) :
    ∃ c, ts.foldlM tHCat acc = some c ∧ c.rows = s ∧
      c.cols = acc.cols + ts.length * d := by
  induction ts generalizing acc with
  | nil => exact ⟨acc, rfl, hr, by simp⟩
  | cons z t ih =>
    have hz := hall z (List.mem_cons_self _ _)
    have hcond : acc.rows = z.rows := by rw [hr, hz.1]
    obtain ⟨c, hc, hcr, hcc⟩ :=
      ih (fun w hw => hall w (List.mem_cons_of_mem _ hw))
        ⟨acc.rows, acc.cols + z.cols,
          fun i j => if j < acc.cols then acc.entry i j else z.entry i (j - acc.cols)⟩ hr
    refine ⟨c, ?_, hcr, ?_⟩
    · rw [List.foldlM_cons]
      show (tHCat acc z).bind _ = some c
      unfold tHCat
      rw [if_pos hcond, some_bind]
      exact hc
    · rw [hcc]
      show acc.cols + z.cols + t.length * d = acc.cols + (t.length + 1) * d
      rw [hz.2]
      ring

theorem multiHeadForward_shape (m : MultiHeadP) (d : ℕ) (hw : mhaWF m d)
    (x : Tensor2) (hx : x.cols = d) :
    ∃ z, multiHeadForward m x = some z ∧ z.rows = x.rows ∧ z.cols = d := by
  have hne := hw.1
  have hheads := hw.2.1
  have hlIn := hw.2.2.1
  have hlOut := hw.2.2.2
  obtain ⟨zs, hzs, hlen, hall⟩ := mapM_heads_shape m.heads d hheads x hx
  obtain ⟨t, ts, rfl⟩ : ∃ t ts, zs = t :: ts := by
    cases zs with
    | nil => exact absurd (List.length_eq_zero.mp hlen.symm) hne
    | cons t ts => exact ⟨t, ts, rfl⟩
  obtain ⟨c, hc, hcr, hcc⟩ :=
    tCat_fold_shape ts x.rows d (fun w hw' => hall w (List.mem_cons_of_mem _ hw'))
      t (hall t (List.mem_cons_self _ _)).1
  have hccols : c.cols = m.linear.inF := by
    rw [hcc, (hall t (List.mem_cons_self _ _)).2, hlIn, ← hlen]
    show d + ts.length * d = (t :: ts).length * d
    simp [List.length_cons]
    ring
  refine ⟨tLinearU m.linear c, ?_, hcr, hlOut⟩
  unfold multiHeadForward
  rw [hzs, some_bind]
  show (List.foldlM tHCat t ts).bind (fun zc => tLinear m.linear zc) = _
  rw [hc, some_bind, tLinear_eq m.linear c hccols]

theorem ffnForward_shape (ls : List LayerV) (a b : ℕ) (hw : SeqWF ls a b)
    (x : Tensor2) (hx : x.cols = a) :
    ∃ z, ffnForward ls x = some z ∧ z.rows = x.rows ∧ z.cols = b := by
  induction hw generalizing x with
  | nil a => exact ⟨x, rfl, rfl, hx⟩
  | @lin p ls a b c hp hs ih =>
    obtain ⟨z, hz, hzr, hzc⟩ := ih (tLinearU p x) hp.2
    refine ⟨z, ?_, hzr, hzc⟩
    show (layerForward (LayerV.linear p) x).bind _ = some z
    show (tLinear p x).bind _ = some z
    rw [tLinear_eq p x (by rw [hx, hp.1]), some_bind]
    exact hz
  | @relu ls a b hs ih =>
    obtain ⟨z, hz, hzr, hzc⟩ :=
      ih (⟨x.rows, x.cols, fun i j => max (x.entry i j) 0⟩ : Tensor2) hx
    exact ⟨z, hz, hzr, hzc⟩
  | @drop ls a b q hs ih =>
    obtain ⟨z, hz, hzr, hzc⟩ := ih x hx
    exact ⟨z, hz, hzr, hzc⟩

theorem SeqWF_append : ∀ {l1 : List LayerV} {a b : ℕ}, SeqWF l1 a b →
    ∀ {l2 : List LayerV} {c : ℕ}, SeqWF l2 b c → SeqWF (l1 ++ l2) a c := by
  intro l1 a b h1
  induction h1 with
  | nil a => intro l2 c h2; exact h2
  | lin hp hs ih => intro l2 c h2; exact SeqWF.lin hp (ih h2)
  | relu hs ih => intro l2 c h2; exact SeqWF.relu (ih h2)
  | drop q hs ih => intro l2 c h2; exact SeqWF.drop q (ih h2)

theorem SeqWF_flatten {a : ℕ} (ls : List (List LayerV))
    (h : ∀ l ∈ ls, SeqWF l a a) : SeqWF ls.flatten a a := by
  induction ls with
  | nil => exact SeqWF.nil a
  | cons l t ih =>
    rw [List.flatten_cons]
    exact SeqWF_append (h l (List.mem_cons_self _ _))
      (ih fun g hg => h g (List.mem_cons_of_mem _ hg))

theorem mkFFNLayers_SeqWF (i h o : ℕ) (nl : ℤ) (p : ℝ) (F : FFNParams) :
    SeqWF (mkFFNLayers i h o nl p F) i o := by
  unfold mkFFNLayers
  refine SeqWF_append
    (SeqWF_append
      (SeqWF.lin ⟨rfl, rfl⟩ (SeqWF.relu (SeqWF.drop p (SeqWF.nil h))))
      (SeqWF_flatten _ ?_))
    (SeqWF.lin ⟨rfl, rfl⟩ (SeqWF.nil o))
  intro l hl
  obtain ⟨t, _, rfl⟩ := List.mem_map.mp hl
  exact SeqWF.lin ⟨rfl, rfl⟩ (SeqWF.relu (SeqWF.drop p (SeqWF.nil h)))

theorem encoderBlockForward_shape (bk : EncoderBlockP) (d : ℕ) (hw : blockWF bk d)
    (x : Tensor2) (hx : x.cols = d) :
    ∃ z, encoderBlockForward bk x = some z ∧ z.rows = x.rows ∧ z.cols = d := by
  obtain ⟨hm, hf, h1, h2⟩ := hw
  obtain ⟨z1, hz1, hz1r, hz1c⟩ := multiHeadForward_shape bk.mha d hm x hx
  obtain ⟨r, hr, hrr, hrc, _⟩ := tAdd_same x z1 (by rw [hz1r]) (by rw [hz1c, hx])
  obtain ⟨l1, hl1, hl1r, hl1c⟩ := tLayerNorm_some bk.ln1 r (by rw [hrc, hx, h1])
  obtain ⟨f, hfz, hfr, hfc⟩ := ffnForward_shape bk.ffn d d hf l1 (by rw [hl1c, hrc, hx])
  obtain ⟨r2, hr2, hr2r, hr2c, _⟩ := tAdd_same l1 f (by rw [hfr]) (by rw [hfc, hl1c, hrc, hx])
  obtain ⟨out, hout, houtr, houtc⟩ :=
    tLayerNorm_some bk.ln2 r2 (by rw [hr2c, hl1c, hrc, hx, h2])
  refine ⟨out, ?_, by rw [houtr, hr2r, hl1r, hrr],
    by rw [houtc, hr2c, hl1c, hrc, hx]⟩
  unfold encoderBlockForward
  rw [hz1, some_bind, hr, some_bind, hl1, some_bind, hfz, some_bind, hr2,
    some_bind, hout]

theorem blocks_fold_shape (bs : List EncoderBlockP) (d : ℕ)
    (hw : ∀ b ∈ bs, blockWF b d) (z : Tensor2) (hz : z.cols = d) :
    ∃ out, bs.foldlM (fun z b => encoderBlockForward b z) z = some out ∧
      out.rows = z.rows ∧ out.cols = d := by
  induction bs generalizing z with
  | nil => exact ⟨z, rfl, rfl, hz⟩
  | cons b t ih =>
    obtain ⟨z1, hz1, hz1r, hz1c⟩ :=
      encoderBlockForward_shape b d (hw b (List.mem_cons_self _ _)) z hz
    obtain ⟨out, hout, houtr, houtc⟩ :=
      ih (fun g hg => hw g (List.mem_cons_of_mem _ hg)) z1 hz1c
    refine ⟨out, ?_, by rw [houtr, hz1r], houtc⟩
    rw [List.foldlM_cons]
    show (encoderBlockForward b z).bind _ = some out
    rw [hz1, some_bind]
    exact hout

theorem tAdd_shape (a b : Tensor2)
    (h : (a.rows = b.rows ∨ a.rows = 1 ∨ b.rows = 1) ∧
         (a.cols = b.cols ∨ a.cols = 1 ∨ b.cols = 1)) :
    ∃ c, tAdd a b = some c ∧ c.rows = bdim a.rows b.rows ∧
      c.cols = bdim a.cols b.cols := by
  unfold tAdd
  rw [if_pos h]
  exact ⟨_, rfl, rfl, rfl⟩

theorem tAdd_rows_incompat (a b : Tensor2)
    (h : ¬(a.rows = b.rows ∨ a.rows = 1 ∨ b.rows = 1)) : tAdd a b = none := by
  unfold tAdd
  rw [if_neg (by tauto)]

theorem h0_WF : headWF h0 4 := ⟨⟨rfl, rfl⟩, ⟨rfl, rfl⟩, ⟨rfl, rfl⟩⟩

theorem zeroBlock_WF (d : ℕ) : blockWF (zeroBlock d) d := by
  refine ⟨⟨by simp [zeroBlock, zeroMHA], ?_, ⟨rfl, rfl⟩⟩,
    mkFFNLayers_SeqWF d d d 2 0 zeroFFNP, rfl, rfl⟩
  intro h hm
  have : h = zeroHead d := by simpa [zeroBlock, zeroMHA] using hm
  subst this
  exact ⟨⟨rfl, rfl⟩, ⟨rfl, rfl⟩, ⟨rfl, rfl⟩⟩

/-- **C2** (amended): `Encoder.forward` adds the FULL positional table —
the code performs no `[0:seq_len]` slicing — so a same-shape call requires
`seq_len = max_sequence_length`; in that case the table is added exactly
once before the first block, the `N` blocks are applied sequentially, and
the output has the input's shape `[seq_len, d]`. -/
theorem encoderForward_full_table (p : EncoderP) (d L : ℕ) (x : Tensor2)
    (hwf : ∀ b ∈ p.blocks, blockWF b d)
    (hpr : p.posEncoding.rows = L) (hpc : p.posEncoding.cols = d)
    (hpe : ∀ a b, p.posEncoding.entry a b = getPositionEncoding L d 10000 a b)
    (hxr : x.rows = L) (hxc : x.cols = d) (hL : 0 < L) :
    ∃ z0 out, tAdd x p.posEncoding = some z0 ∧ z0.rows = L ∧ z0.cols = d ∧
      (∀ i j, i < L → j < d →
        z0.entry i j = x.entry i j + getPositionEncoding L d 10000 i j) ∧
      encoderForward p x
        = p.blocks.foldlM (fun z b => encoderBlockForward b z) z0 ∧
      encoderForward p x = some out ∧ out.rows = L ∧ out.cols = d := by
  obtain ⟨z0, hz0, hz0r, hz0c, hz0e⟩ :=
    tAdd_same x p.posEncoding (by rw [hxr, hpr]) (by rw [hxc, hpc])
  obtain ⟨out, hout, houtr, houtc⟩ :=
    blocks_fold_shape p.blocks d hwf z0 (by rw [hz0c, hxc])
  refine ⟨z0, out, hz0, by rw [hz0r, hxr], by rw [hz0c, hxc], ?_, ?_, ?_,
    by rw [houtr, hz0r, hxr], houtc⟩
  · intro i j hi hj
    rw [hz0e i j (by rw [hxr]; exact hi) (by rw [hxc]; exact hj), hpe]
  · unfold encoderForward
    rw [hz0, some_bind]
  · unfold encoderForward
    rw [hz0, some_bind]
    exact hout

theorem encoderForward_full_table_witness :
    ((∀ b ∈ encL3.blocks, blockWF b 2) ∧ encL3.posEncoding.rows = 3 ∧
     encL3.posEncoding.cols = 2 ∧
     (∀ a b, encL3.posEncoding.entry a b = getPositionEncoding 3 2 10000 a b) ∧
     x32.rows = 3 ∧ x32.cols = 2 ∧ 0 < 3) ∧
    (∃ z0 out, tAdd x32 encL3.posEncoding = some z0 ∧ z0.rows = 3 ∧ z0.cols = 2 ∧
      (∀ i j, i < 3 → j < 2 →
        z0.entry i j = x32.entry i j + getPositionEncoding 3 2 10000 i j) ∧
      encoderForward encL3 x32
        = encL3.blocks.foldlM (fun z b => encoderBlockForward b z) z0 ∧
      encoderForward encL3 x32 = some out ∧ out.rows = 3 ∧ out.cols = 2) :=
  ⟨⟨fun b hb => by
      rw [show b = zeroBlock 2 from by simpa [encL3] using hb]
      exact zeroBlock_WF 2,
    rfl, rfl, fun a b => rfl, rfl, rfl, by norm_num⟩,
   encoderForward_full_table encL3 2 3 x32
     (fun b hb => by
       rw [show b = zeroBlock 2 from by simpa [encL3] using hb]
       exact zeroBlock_WF 2)
     rfl rfl (fun a b => rfl) rfl rfl (by norm_num)⟩

theorem encoderForward_short_input_fails :
    0 < x22.rows ∧ x22.rows ≤ encL3.posEncoding.rows ∧
    encoderForward encL3 x22 = none := by
  refine ⟨by norm_num [x22], by norm_num [x22, encL3], ?_⟩
  unfold encoderForward
  rw [tAdd_rows_incompat x22 encL3.posEncoding (by norm_num [x22, encL3])]
  rfl

/-- **C6** (amended): when the call-time sequence length exceeds the
configured `max_sequence_length` (of size at least 2), `Encoder.forward`
fails — but the failure is a broadcast shape error at the addition
`x + pos_encoding`, not an explicit bounds check, and the table is never
indexed or sliced; when `max_sequence_length = 1`, broadcasting silently
expands the single positional row and the call succeeds instead. -/
theorem encoderForward_too_long_fails (p : EncoderP) (x : Tensor2)
    (hL : 2 ≤ p.posEncoding.rows) (hs : p.posEncoding.rows < x.rows) :
    encoderForward p x = none := by
  unfold encoderForward
  rw [tAdd_rows_incompat x p.posEncoding (by omega)]
  rfl

theorem encoderForward_too_long_fails_witness :
    (2 ≤ encL3.posEncoding.rows ∧ encL3.posEncoding.rows < x42.rows) ∧
    encoderForward encL3 x42 = none :=
  ⟨⟨by norm_num [encL3], by norm_num [encL3, x42]⟩,
   encoderForward_too_long_fails encL3 x42 (by norm_num [encL3])
     (by norm_num [encL3, x42])⟩

theorem encoderForward_maxlen_one_succeeds :
    encL1.posEncoding.rows < x22.rows ∧
    (encoderForward encL1 x22).isSome = true := by
  refine ⟨by norm_num [encL1, x22], ?_⟩
  obtain ⟨z0, hz0, hz0r, hz0c⟩ :=
    tAdd_shape x22 encL1.posEncoding ⟨Or.inr (Or.inr rfl), Or.inl rfl⟩
  obtain ⟨out, hout, _, _⟩ :=
    blocks_fold_shape encL1.blocks 2
      (fun b hb => by
        rw [show b = zeroBlock 2 from by simpa [encL1] using hb]
        exact zeroBlock_WF 2)
      z0 (by rw [hz0c]; rfl)
  unfold encoderForward
  rw [hz0, some_bind, hout]
  rfl

/-- **C8** (amended): a zero-length input is not explicitly rejected.
`Encoder.forward` does fail on it whenever `max_sequence_length ≥ 2`, but
only through the broadcast mismatch with the positional table;
`AttentionHead.forward` by itself accepts the empty input and returns an
empty `[0, d]` output tensor instead of an error. -/
theorem encoderForward_empty_input_fails (p : EncoderP) (x : Tensor2)
    (hL : 2 ≤ p.posEncoding.rows) (hx : x.rows = 0) :
    encoderForward p x = none := by
  unfold encoderForward
  rw [tAdd_rows_incompat x p.posEncoding (by omega)]
  rfl

theorem encoderForward_empty_input_fails_witness :
    (2 ≤ encL3.posEncoding.rows ∧ x02.rows = 0) ∧
    encoderForward encL3 x02 = none :=
  ⟨⟨by norm_num [encL3], rfl⟩,
   encoderForward_empty_input_fails encL3 x02 (by norm_num [encL3]) rfl⟩

theorem attentionHead_empty_input_returns_output :
    xEmpty.rows = 0 ∧
    ((attentionHeadForward h0 xEmpty).map fun z => (z.rows, z.cols)) = some (0, 4) := by
  refine ⟨rfl, ?_⟩
  rw [attentionHeadForward_eq h0 4 h0_WF xEmpty rfl]
  rfl

theorem sqrt_four : Real.sqrt (4 : ℝ) = 2 := by
  rw [show (4 : ℝ) = 2 ^ 2 by norm_num]
  exact Real.sqrt_sq (by norm_num)

/-- **C1** (amended): for every input `X` of shape `[seq_len, d]` with
`seq_len > 0`, `AttentionHead.forward` returns
`Z = (softmax(Q·Kᵗ) / sqrt(d_k)) · V` where `Q`, `K`, `V` are the head's
`nn.Linear` projections of `X`: the division by `sqrt(d_k)` is applied to
the softmax *output* (line 42 of src/model.py), not to the similarity
matrix before the row-wise softmax as the spec's formula states. -/
theorem attentionHead_scales_after_softmax (h : AttentionHeadP) (d : ℕ)
    (x q k v : Tensor2) (hw : headWF h d) (hd : 0 < d) (hx : x.cols = d)
    (hs : 0 < x.rows) (hq : tLinear h.Q x = some q)
    (hk : tLinear h.K x = some k) (hv : tLinear h.V x = some v) :
    attentionHeadForward h x = some (codeAttention q k v) := by
  rw [tLinear_eq h.Q x (by rw [hx, hw.1.1])] at hq
  rw [tLinear_eq h.K x (by rw [hx, hw.2.1.1])] at hk
  rw [tLinear_eq h.V x (by rw [hx, hw.2.2.1])] at hv
  injection hq with hq
  injection hk with hk
  injection hv with hv
  subst hq
  subst hk
  subst hv
  exact attentionHeadForward_eq h d hw x hx

theorem attentionHead_scales_after_softmax_witness :
    (headWF h0 4 ∧ 0 < 4 ∧ x0.cols = 4 ∧ 0 < x0.rows ∧
     tLinear h0.Q x0 = some (tLinearU h0.Q x0) ∧
     tLinear h0.K x0 = some (tLinearU h0.K x0) ∧
     tLinear h0.V x0 = some (tLinearU h0.V x0)) ∧
    attentionHeadForward h0 x0
      = some (codeAttention (tLinearU h0.Q x0) (tLinearU h0.K x0) (tLinearU h0.V x0)) :=
  ⟨⟨h0_WF, by norm_num, rfl, by norm_num [x0], tLinear_eq _ _ rfl,
    tLinear_eq _ _ rfl, tLinear_eq _ _ rfl⟩,
   attentionHead_scales_after_softmax h0 4 x0 _ _ _ h0_WF (by norm_num) rfl
     (by norm_num [x0]) (tLinear_eq _ _ rfl) (tLinear_eq _ _ rfl)
     (tLinear_eq _ _ rfl)⟩

theorem attentionHead_spec_formula_fails :
    ((attentionHeadForward h0 x0).map fun z => z.entry 0 0) = some (1 / 2) ∧
    (specAttention (tLinearU h0.Q x0) (tLinearU h0.K x0) (tLinearU h0.V x0)).entry 0 0
      = 1 ∧
    ((1 : ℝ) / 2) ≠ 1 := by
  refine ⟨?_, ?_, by norm_num⟩
  · rw [attentionHeadForward_eq h0 4 h0_WF x0 rfl]
    show some ((codeAttention (tLinearU h0.Q x0) (tLinearU h0.K x0)
      (tLinearU h0.V x0)).entry 0 0) = some (1 / 2)
    congr 1
    simp [codeAttention, tMatmulU, tScalarDiv, tSoftmaxRows, tTranspose, tLinearU,
      h0, x0, zeroLin, onesBiasLin, Finset.sum_range_succ, Real.exp_zero, sqrt_four]
  · simp [specAttention, tMatmulU, tScalarDiv, tSoftmaxRows, tTranspose, tLinearU,
      h0, x0, zeroLin, onesBiasLin, Finset.sum_range_succ, Real.exp_zero, sqrt_four]

/-- **C3** (amended): the pre-merge matrix `q_k_softmax` that multiplies
`V` inside `AttentionHead.forward` is the row-wise softmax *divided by*
`sqrt(d_k)`, so each of its rows sums to `1 / sqrt(d_k)`, not `1`; the
softmax output before that division is row-stochastic. -/
theorem attnWeights_row_sums (h : AttentionHeadP) (d : ℕ) (x : Tensor2)
    (hw : headWF h d) (hd : 0 < d) (hx : x.cols = d) (hs : 0 < x.rows) :
    ∃ M, attnWeights h x = some M ∧ M.rows = x.rows ∧ M.cols = x.rows ∧
      (∀ i, i < x.rows →
        (∑ j ∈ Finset.range x.rows,
          (tSoftmaxRows (tMatmulU (tLinearU h.Q x)
            (tTranspose (tLinearU h.K x)))).entry i j) = 1) ∧
      (∀ i, i < x.rows →
        (∑ j ∈ Finset.range x.rows, M.entry i j) = 1 / Real.sqrt (d : ℝ)) := by
  have hsm : ∀ i,
      (∑ j ∈ Finset.range x.rows,
        (tSoftmaxRows (tMatmulU (tLinearU h.Q x)
          (tTranspose (tLinearU h.K x)))).entry i j) = 1 := by
    intro i
    show (∑ j ∈ Finset.range x.rows,
      Real.exp ((tMatmulU (tLinearU h.Q x) (tTranspose (tLinearU h.K x))).entry i j) /
        ∑ t ∈ Finset.range x.rows,
          Real.exp ((tMatmulU (tLinearU h.Q x) (tTranspose (tLinearU h.K x))).entry i t)) = 1
    rw [← Finset.sum_div]
    exact div_self (ne_of_gt (Finset.sum_pos (fun t _ => Real.exp_pos _)
      ⟨0, Finset.mem_range.mpr hs⟩))
  rw [attnWeights_eq h d hw x hx]
  refine ⟨_, rfl, rfl, rfl, fun i _ => hsm i, ?_⟩
  intro i hi
  show (∑ j ∈ Finset.range x.rows,
    (tSoftmaxRows (tMatmulU (tLinearU h.Q x) (tTranspose (tLinearU h.K x)))).entry i j /
      Real.sqrt ((h.K.outF : ℕ) : ℝ)) = 1 / Real.sqrt (d : ℝ)
  rw [← Finset.sum_div, hsm i, hw.2.1.2]

theorem attnWeights_row_sums_witness :
    (headWF h0 4 ∧ 0 < 4 ∧ x0.cols = 4 ∧ 0 < x0.rows) ∧
    (∃ M, attnWeights h0 x0 = some M ∧ M.rows = x0.rows ∧ M.cols = x0.rows ∧
      (∀ i, i < x0.rows →
        (∑ j ∈ Finset.range x0.rows,
          (tSoftmaxRows (tMatmulU (tLinearU h0.Q x0)
            (tTranspose (tLinearU h0.K x0)))).entry i j) = 1) ∧
      (∀ i, i < x0.rows →
        (∑ j ∈ Finset.range x0.rows, M.entry i j) = 1 / Real.sqrt ((4 : ℕ) : ℝ))) :=
  ⟨⟨h0_WF, by norm_num, rfl, by norm_num [x0]⟩,
   attnWeights_row_sums h0 4 x0 h0_WF (by norm_num) rfl (by norm_num [x0])⟩

theorem attnWeights_not_row_stochastic :
    ((attnWeights h0 x0).map fun M => ∑ j ∈ Finset.range M.cols, M.entry 0 j)
      = some (1 / 2) ∧
    ((1 : ℝ) / 2) ≠ 1 := by
  refine ⟨?_, by norm_num⟩
  rw [attnWeights_eq h0 4 h0_WF x0 rfl]
  show some _ = some ((1 : ℝ) / 2)
  congr 1
  simp [tScalarDiv, tSoftmaxRows, tMatmulU, tTranspose, tLinearU, h0, x0, zeroLin,
    Finset.sum_range_succ, Real.exp_zero, sqrt_four]

/-- **C5** (amended): `Encoder.forward` is not well-defined on batched
3-dimensional input.  With the spec's scenario (2 blocks, 2 heads, width
16, default `max_len = 512`), a `[2, 8, 16]` batch fails at
`x + pos_encoding` because the `[512, 16]` table does not broadcast
against sequence dimension 8; and even with `max_len` matching the
sequence length, `AttentionHead.forward`'s `transpose(1, 0)` swaps the
batch and sequence dimensions, making the batched `matmul` ill-defined. -/
theorem encoderShape_rejects_batched_input (b s : ℕ)
    (hs : s ≠ 512) (h1 : s ≠ 1) :
    encoderShape 16 2 2 512 512 4 [b, s, 16] = none ∧
    encoderShape 16 2 2 8 512 4 [2, 8, 16] = none := by
  constructor
  · unfold encoderShape broadcastShapes
    simp [broadcastRev, bcDim, hs, h1]
  · decide

theorem encoderShape_rejects_batched_input_witness :
    ((8 : ℕ) ≠ 512 ∧ (8 : ℕ) ≠ 1) ∧
    (encoderShape 16 2 2 512 512 4 [2, 8, 16] = none ∧
     encoderShape 16 2 2 8 512 4 [2, 8, 16] = none) :=
  ⟨⟨by norm_num, by norm_num⟩,
   encoderShape_rejects_batched_input 2 8 (by norm_num) (by norm_num)⟩

theorem encoderShape_batched_scenario_fails :
    encoderShape 16 2 2 512 512 4 [2, 8, 16] = none := by decide

theorem mapM_const_some {α β : Type} (l : List α) (b : β) :
    (l.mapM fun _ => some b) = some (l.map fun _ => b) := by
  induction l with
  | nil => rfl
  | cons a t ih =>
    rw [List.mapM_cons, ih]
    rfl

theorem MultiHeadAttention_init_eq (Q K V nh : ℕ) :
    MultiHeadAttention_init Q K V nh
      = some ⟨(List.range nh).map fun _ => ⟨Q, K, V⟩, nh * V, V⟩ := by
  unfold MultiHeadAttention_init AttentionHead_init
  rw [mapM_const_some]
  rfl

theorem EncoderBlock_init_eq (Q K V nh hid : ℕ) (nl : ℤ) (p : ℝ) :
    EncoderBlock_init Q K V nh hid nl p
      = some ⟨ffnLayers V hid V nl p,
          ⟨(List.range nh).map fun _ => ⟨Q, K, V⟩, nh * V, V⟩, V, V⟩ := by
  unfold EncoderBlock_init FFN_init
  rw [some_bind, MultiHeadAttention_init_eq, some_bind]

theorem Encoder_init_eq (Q K V nh ne L hid : ℕ) (nl : ℤ) (p : ℝ) :
    Encoder_init Q K V nh ne L hid nl p
      = some ⟨(List.range ne).map fun _ =>
            ⟨ffnLayers V hid V nl p,
             ⟨(List.range nh).map fun _ => ⟨Q, K, V⟩, nh * V, V⟩, V, V⟩,
          L, V⟩ := by
  unfold Encoder_init
  simp only [EncoderBlock_init_eq, mapM_const_some, some_bind]

/-- **C7** (amended): none of the constructors validates its
configuration.  `FFN.__init__` with `num_layers < 2` succeeds and builds
the `num_layers = 2` architecture; `MultiHeadAttention.__init__` with
zero heads and `Encoder.__init__` with zero `model_width` and zero
`max_sequence_length` also succeed, so no error is raised before the
first forward call. -/
theorem constructors_do_not_validate (i h o nh ne hid d : ℕ) (nl nl2 : ℤ)
    (p p2 : ℝ) (hnl : nl ≤ 2) :
    FFN_init i h o nl p
      = some [LayerSpec.linear i h, LayerSpec.relu, LayerSpec.dropout p,
              LayerSpec.linear h o] ∧
    (MultiHeadAttention_init d d d 0).isSome = true ∧
    (Encoder_init 0 0 0 nh ne 0 hid nl2 p2).isSome = true := by
  have hz : (nl - 2).toNat = 0 := by omega
  refine ⟨?_, ?_, ?_⟩
  · unfold FFN_init ffnLayers
    rw [hz]
    rfl
  · rw [MultiHeadAttention_init_eq]
    rfl
  · rw [Encoder_init_eq]
    rfl

theorem constructors_do_not_validate_witness :
    ((1 : ℤ) ≤ 2) ∧
    (FFN_init 4 8 4 1 0
       = some [LayerSpec.linear 4 8, LayerSpec.relu, LayerSpec.dropout 0,
               LayerSpec.linear 8 4] ∧
     (MultiHeadAttention_init 16 16 16 0).isSome = true ∧
     (Encoder_init 0 0 0 2 2 0 512 4 0).isSome = true) :=
  ⟨by norm_num, constructors_do_not_validate 4 8 4 2 2 512 16 1 4 0 0 (by norm_num)⟩

theorem FFN_init_num_layers_one_no_error :
    ((1 : ℤ) < 2) ∧
    FFN_init 4 8 4 1 0
      = some [LayerSpec.linear 4 8, LayerSpec.relu, LayerSpec.dropout 0,
              LayerSpec.linear 8 4] :=
  ⟨by norm_num, rfl⟩

/-- **C10**: for every `num_layers ≤ 2` (including 0, 1 and negative
values), `FFN` construction succeeds and builds exactly the
`num_layers = 2` architecture `Linear(input_size, hidden_size), ReLU,
Dropout, Linear(hidden_size, output_size)`, because the hidden-repeat
loop runs `max(0, num_layers - 2)` times. -/
theorem ffnLayers_small_num_layers (i h o : ℕ) (nl : ℤ) (p : ℝ) (hnl : nl ≤ 2) :
    FFN_init i h o nl p
      = some [LayerSpec.linear i h, LayerSpec.relu, LayerSpec.dropout p,
              LayerSpec.linear h o] ∧
    FFN_init i h o nl p = FFN_init i h o 2 p := by
  have hz : (nl - 2).toNat = 0 := by omega
  constructor
  · unfold FFN_init ffnLayers
    rw [hz]
    rfl
  · unfold FFN_init ffnLayers
    rw [hz]
    rfl

theorem ffnLayers_small_num_layers_witness :
    ((-1 : ℤ) ≤ 2) ∧
    (FFN_init 4 8 4 (-1) 0
       = some [LayerSpec.linear 4 8, LayerSpec.relu, LayerSpec.dropout 0,
               LayerSpec.linear 8 4] ∧
     FFN_init 4 8 4 (-1) 0 = FFN_init 4 8 4 2 0) :=
  ⟨by norm_num, ffnLayers_small_num_layers 4 8 4 (-1) 0 (by norm_num)⟩

end TransformersFromScratch
